import Mathlib

/-!
Shallow embedding of the per-frame simulation core of `crates/test1/src/main.rs`
(a small bevy game: player movement with acceleration/friction/speed cap, mouse
aiming, projectile firing with a cooldown, and time-based projectile expiry).

Modelling conventions:
* `f32`/`f64` values are modelled as real numbers (`ℝ`).
* A float value that the source computes as non-finite (NaN/inf — produced only
  by `normalize()` on a zero-length vector and by `angle_between` on a
  zero-length vector) is modelled as `none` of an `Option` type; a finite value
  is `some`.  The player's own velocity and translation never become non-finite
  (every `normalize()` on that path is guarded by a positive-length test), so
  they are plain `Vec3`; projectile fields may be non-finite, so they are
  `Option`-valued.
* Each bevy system becomes a pure step function; the whole-frame function
  `worldFrame` composes them in the order of the design (Input Controller →
  Aim Tracker → Fire Controller → Movement Integrator → Friction Decay →
  Lifespan Reaper).
-/

noncomputable section

/-- 2D vector of reals, modelling `glam::Vec2`. -/
structure Vec2 where
  x : ℝ
  y : ℝ

/-- 3D vector of reals, modelling `glam::Vec3`. -/
structure Vec3 where
  x : ℝ
  y : ℝ
  z : ℝ

instance : Add Vec2 := ⟨fun a b => ⟨a.x + b.x, a.y + b.y⟩⟩

instance : Sub Vec2 := ⟨fun a b => ⟨a.x - b.x, a.y - b.y⟩⟩

instance : Add Vec3 := ⟨fun a b => ⟨a.x + b.x, a.y + b.y, a.z + b.z⟩⟩

instance : Sub Vec3 := ⟨fun a b => ⟨a.x - b.x, a.y - b.y, a.z - b.z⟩⟩

instance : SMul ℝ Vec3 := ⟨fun c v => ⟨c * v.x, c * v.y, c * v.z⟩⟩

/-- Squared euclidean length of a `Vec2`. -/
def Vec2.lengthSq (v : Vec2) : ℝ := v.x ^ 2 + v.y ^ 2

/-- Squared euclidean length of a `Vec3`. -/
def Vec3.lengthSq (v : Vec3) : ℝ := v.x ^ 2 + v.y ^ 2 + v.z ^ 2

/-- Euclidean length of a `Vec3`, modelling `Vec3::length`. -/
def Vec3.length (v : Vec3) : ℝ := Real.sqrt v.lengthSq

/-- Normalization `v / |v|`, modelling `Vec3::normalize`.  In the source a
zero-length input yields NaN components; every *guarded* call site (the input
system, where a positive-length test dominates the call) uses this total
function, while the unguarded call sites in the fire system wrap it in the
explicit zero test that models NaN production. -/
def Vec3.normalize (v : Vec3) : Vec3 := (1 / v.length) • v

/-- Signed angle between two `Vec2`s, modelling glam's `Vec2::angle_between`
(`acos` of the normalized dot product, negated when the perp-dot product is
negative).  A zero-length input makes the source compute `acos (0/0) = NaN`;
that case is modelled as `none`. -/
def Vec2.angleBetween (v w : Vec2) : Option ℝ :=
  if v.lengthSq = 0 ∨ w.lengthSq = 0 then none
  else
    let a := Real.arccos ((v.x * w.x + v.y * w.y) / Real.sqrt (v.lengthSq * w.lengthSq))
    if v.x * w.y - v.y * w.x < 0 then some (-a) else some a

/-- Component `Lifespan { kill_at: f64 }`. (Projectile-only; inlined into
`Projectile` below as the field `kill_at`.) -/
structure Lifespan where
  kill_at : ℝ

/-- Component `Velocity` of the player: `magnitude: Vec3`, `last_change: f64`,
`no_friction: bool`.  The player's magnitude stays finite, hence plain `Vec3`. -/
structure Velocity where
  magnitude : Vec3
  last_change : ℝ
  no_friction : Bool

/-- `Velocity` of a projectile: its `magnitude` is set to
`dir.normalize() * 2000.0` at spawn time, which is NaN when `dir` is the zero
vector, hence `Option Vec3`. -/
structure ProjVelocity where
  magnitude : Option Vec3
  last_change : ℝ
  no_friction : Bool

/-- The player's `Transform`: translation plus the z-rotation angle of its
quaternion (the source only ever writes `Quat::from_rotation_z`); `none`
models a NaN quaternion (written when `angle_between` returns NaN). -/
structure Transform where
  translation : Vec3
  rotation : Option ℝ

/-- A projectile's `Transform`: its translation is
`player.translation + dir.normalize() * 50.0` at spawn, NaN (`none`) when
`dir` is zero. -/
structure ProjTransform where
  translation : Option Vec3
  rotation : Option ℝ

/-- Component `Shooter` (the `pew_handle` asset handle is irrelevant to the
simulation and omitted).  `shoot_angle` is `none` when the source stored NaN. -/
structure Shooter where
  shoot_direction : Vec2
  shoot_angle : Option ℝ
  last_shot_at : ℝ

/-- A projectile entity: `SpriteComponents` transform + `Velocity` +
`Lifespan` as spawned by `fire_system`. -/
structure Projectile where
  transform : ProjTransform
  velocity : ProjVelocity
  kill_at : ℝ

/-- The world state the systems operate on: the single player entity
(Transform + Velocity + Shooter, spawned by `setup`) and the list of live
projectile entities. -/
structure World where
  transform : Transform
  velocity : Velocity
  shooter : Shooter
  projectiles : List Projectile

/-- Pressed-state of the four movement keys read by `input_system`. -/
structure Keys where
  a : Bool
  w : Bool
  s : Bool
  d : Bool
deriving DecidableEq

/-- `bevy::input::ElementState` of a mouse-button event. -/
inductive ElementState where
  | Pressed
  | Released
deriving DecidableEq

/-- `bevy::prelude::MouseButton`. -/
inductive MouseButton where
  | Left
  | Right
  | Middle
  | Other (n : ℕ)
deriving DecidableEq

/-- `bevy::input::mouse::MouseButtonInput` event. -/
structure MouseButtonInput where
  button : MouseButton
  state : ElementState
deriving DecidableEq

/-- `CursorMoved` event: a screen-space pointer position. -/
structure CursorMoved where
  position : Vec2

/-- Acceleration constant `accel = 5000.0` of `input_system`. -/
def accel : ℝ := 5000

/-- Speed cap `max_speed = 500.0` of `input_system`. -/
def max_speed : ℝ := 500

/-- The raw direction vector accumulated by `input_system` from the key
state: each pressed key adds `±1.0 * dt` to the x (A/D) or y (W/S)
component; z stays 0. -/
def rawDir (keys : Keys) (dt : ℝ) : Vec3 :=
  { x := (if keys.a then -(1 * dt) else 0) + (if keys.d then 1 * dt else 0)
  , y := (if keys.w then 1 * dt else 0) + (if keys.s then -(1 * dt) else 0)
  , z := 0 }

/-- The per-frame acceleration contribution of `input_system`:
`dir.normalize() * accel * dt` (only used under the guard
`dir.length() > 0.0`). -/
def accelContribution (keys : Keys) (dt : ℝ) : Vec3 :=
  (accel * dt) • (rawDir keys dt).normalize

/-- One application of `input_system` to the player's `Velocity`
(the query `(&mut Velocity, &Shooter)` matches only the player).  The source's
sequence of in-place mutations (`dir = dir.normalize() * accel * dt`;
`velocity.magnitude += dir`; rescale if over the cap; `last_change = now`) is
written as one nested conditional with the intermediate values inlined. -/
def inputStep (now dt : ℝ) (keys : Keys) (v : Velocity) : Velocity :=
  if 0 < (rawDir keys dt).length then
    { magnitude :=
        if max_speed < (v.magnitude + accelContribution keys dt).length
        then max_speed • (v.magnitude + accelContribution keys dt).normalize
        else v.magnitude + accelContribution keys dt
    , last_change := now
    , no_friction := v.no_friction }
  else v

/-- One application of `friction_system` to a plain-`Vec3` `Velocity`
(the player): when `now - last_change > 0.1` and `!no_friction` and
`magnitude.length() > 0.0`, scale the magnitude by `0.7`. -/
def frictionStep (now : ℝ) (v : Velocity) : Velocity :=
  if 0.1 < now - v.last_change ∧ v.no_friction = false then
    if 0 < v.magnitude.length then { v with magnitude := (0.7 : ℝ) • v.magnitude } else v
  else v

/-- `friction_system` on a projectile's `Velocity`.  The source runs the very
same code; a NaN magnitude (`none`) fails the `length() > 0.0` comparison
(NaN comparisons are false), leaving it unchanged — and the `!no_friction`
test already excludes every projectile. -/
def frictionStepProj (now : ℝ) (v : ProjVelocity) : ProjVelocity :=
  if 0.1 < now - v.last_change ∧ v.no_friction = false then
    match v.magnitude with
    | some m => if 0 < m.length then { v with magnitude := some ((0.7 : ℝ) • m) } else v
    | none => v
  else v

/-- `velocity_system` on the player: `translation.x += magnitude.x * dt`,
`translation.y += magnitude.y * dt` (z untouched). -/
def velocityStep (dt : ℝ) (v : Velocity) (t : Transform) : Transform :=
  { t with translation :=
      { x := t.translation.x + v.magnitude.x * dt
      , y := t.translation.y + v.magnitude.y * dt
      , z := t.translation.z } }

/-- `velocity_system` on a projectile: the same per-axis update; a NaN
translation or NaN velocity leaves the translation NaN. -/
def velocityStepProj (dt : ℝ) (p : Projectile) : Projectile :=
  { p with transform :=
      { p.transform with translation :=
          match p.transform.translation, p.velocity.magnitude with
          | some t, some m => some { x := t.x + m.x * dt, y := t.y + m.y * dt, z := t.z }
          | _, _ => none } }

/-- Screen-center reference point `Vec2::new(1280.0 / 2.0, 400.0)` of
`mouse_system`. -/
def screenCenter : Vec2 := ⟨1280 / 2, 400⟩

/-- One `CursorMoved` event processed by `mouse_system`: compute
`view_dir = (event.position - screenCenter) - (t.x, t.y)`, its signed angle
to `(1,0)`, set `rotation = -angle - π/2` and
`(shoot_direction, shoot_angle) = (view_dir, -angle)`.  A NaN angle (zero
`view_dir`) propagates into `rotation` and `shoot_angle`. -/
def mouseStep (ev : CursorMoved) (t : Transform) (s : Shooter) : Transform × Shooter :=
  let view_dir := (ev.position - screenCenter) - ⟨t.translation.x, t.translation.y⟩
  let angle := view_dir.angleBetween ⟨1, 0⟩
  ({ t with rotation := angle.map (fun a => -a - Real.pi / 2) },
   { s with shoot_direction := view_dir, shoot_angle := angle.map (fun a => -a) })

/-- One `MouseButtonInput` event processed by `fire_system`: if the button is
`Left` (the state is *not* inspected by the source) and
`now - last_shot_at > 0.1`, set `last_shot_at = now` and spawn one projectile:
rotation = `shoot_angle`, translation = `t.translation + dir.normalize()*50`,
velocity = `dir.normalize()*2000` with `no_friction = true`, and
`kill_at = now + 0.5` — where `dir = (shoot_direction.x, shoot_direction.y, 0)`
and a zero-length `dir` makes both normalized quantities NaN (`none`). -/
def fireStep (now : ℝ) (ev : MouseButtonInput) (w : World) : World :=
  if ev.button = MouseButton.Left then
    if 0.1 < now - w.shooter.last_shot_at then
      let dir : Vec3 := ⟨w.shooter.shoot_direction.x, w.shooter.shoot_direction.y, 0⟩
      let proj : Projectile :=
        { transform :=
            { translation :=
                if dir.length = 0 then none
                else some (w.transform.translation + (50 : ℝ) • dir.normalize)
            , rotation := w.shooter.shoot_angle }
        , velocity :=
            { magnitude := if dir.length = 0 then none else some ((2000 : ℝ) • dir.normalize)
            , last_change := 0
            , no_friction := true }
        , kill_at := now + 0.5 }
      { w with shooter := { w.shooter with last_shot_at := now }
             , projectiles := w.projectiles ++ [proj] }
    else w
  else w

/-- `kill_system`: despawn every entity with a `Lifespan` whose
`now ≥ kill_at`; equivalently keep exactly those with `¬ (now ≥ kill_at)`. -/
def killList (now : ℝ) (ps : List Projectile) : List Projectile :=
  ps.filter (fun p => decide (¬ now ≥ p.kill_at))

/-- `input_system` at world level: the query `(&mut Velocity, &Shooter)`
matches the player only. -/
def inputSystem (now dt : ℝ) (keys : Keys) (w : World) : World :=
  { w with velocity := inputStep now dt keys w.velocity }

/-- `mouse_system` at world level: drain the cursor events in order. -/
def mouseSystem (evs : List CursorMoved) (w : World) : World :=
  evs.foldl
    (fun w ev =>
      let ts := mouseStep ev w.transform w.shooter
      { w with transform := ts.1, shooter := ts.2 }) w

/-- `fire_system` at world level: drain the mouse-button events in order. -/
def fireSystem (now : ℝ) (evs : List MouseButtonInput) (w : World) : World :=
  evs.foldl (fun w ev => fireStep now ev w) w

/-- `velocity_system` at world level. -/
def velocitySystem (dt : ℝ) (w : World) : World :=
  { w with transform := velocityStep dt w.velocity w.transform
         , projectiles := w.projectiles.map (velocityStepProj dt) }

/-- `friction_system` applied to one projectile entity. -/
def frictionProj (now : ℝ) (p : Projectile) : Projectile :=
  { p with velocity := frictionStepProj now p.velocity }

/-- `friction_system` at world level. -/
def frictionSystem (now : ℝ) (w : World) : World :=
  { w with velocity := frictionStep now w.velocity
         , projectiles := w.projectiles.map (frictionProj now) }

/-- `kill_system` at world level. -/
def killSystem (now : ℝ) (w : World) : World :=
  { w with projectiles := killList now w.projectiles }

/-- One whole simulation frame, composing the systems in the design order
Input Controller → Aim Tracker → Fire Controller → Movement Integrator →
Friction Decay → Lifespan Reaper. -/
def worldFrame (now dt : ℝ) (keys : Keys) (cevs : List CursorMoved)
    (fevs : List MouseButtonInput) (w : World) : World :=
  killSystem now (frictionSystem now (velocitySystem dt
    (fireSystem now fevs (mouseSystem cevs (inputSystem now dt keys w)))))

/-- The startup state created by `setup`: player at the origin with identity
rotation, zero velocity (`last_change = 0`, `no_friction = false`), and a
`Shooter` with zero `shoot_direction`, `shoot_angle = 0.0` and
`last_shot_at = 0.0`; no projectiles. -/
def initialWorld : World :=
  { transform := { translation := ⟨0, 0, 0⟩, rotation := some 0 }
  , velocity := { magnitude := ⟨0, 0, 0⟩, last_change := 0, no_friction := false }
  , shooter := { shoot_direction := ⟨0, 0⟩, shoot_angle := some 0, last_shot_at := 0 }
  , projectiles := [] }

/-! ## Helper lemmas about the vector model -/

@[simp]
theorem Vec3.smul_mk (c x y z : ℝ) : c • (Vec3.mk x y z) = ⟨c * x, c * y, c * z⟩ := rfl

@[simp]
theorem Vec3.add_mk (x y z x' y' z' : ℝ) :
    (Vec3.mk x y z) + (Vec3.mk x' y' z') = ⟨x + x', y + y', z + z'⟩ := rfl

@[simp]
theorem Vec3.sub_mk (x y z x' y' z' : ℝ) :
    (Vec3.mk x y z) - (Vec3.mk x' y' z') = ⟨x - x', y - y', z - z'⟩ := rfl

@[simp]
theorem Vec2.sub_components (x y x' y' : ℝ) :
    (Vec2.mk x y) - (Vec2.mk x' y') = ⟨x - x', y - y'⟩ := rfl

theorem Vec3.smul_def (c : ℝ) (v : Vec3) : c • v = ⟨c * v.x, c * v.y, c * v.z⟩ := rfl

theorem Vec3.add_def (a b : Vec3) : a + b = ⟨a.x + b.x, a.y + b.y, a.z + b.z⟩ := rfl

theorem Vec3.sub_def (a b : Vec3) : a - b = ⟨a.x - b.x, a.y - b.y, a.z - b.z⟩ := rfl

theorem Vec3.add_sub_cancel (a b : Vec3) : (a + b) - a = b := by
  cases a; cases b
  simp

theorem Vec3.lengthSq_nonneg (v : Vec3) : 0 ≤ v.lengthSq := by
  have := sq_nonneg v.x; have := sq_nonneg v.y; have := sq_nonneg v.z
  unfold Vec3.lengthSq; linarith

theorem Vec3.length_nonneg (v : Vec3) : 0 ≤ v.length := Real.sqrt_nonneg _

theorem Vec3.length_pos_iff (v : Vec3) : 0 < v.length ↔ 0 < v.lengthSq := Real.sqrt_pos

theorem Vec3.length_eq_zero_iff (v : Vec3) : v.length = 0 ↔ v.lengthSq = 0 := by
  rw [Vec3.length, Real.sqrt_eq_zero']
  exact ⟨fun h => le_antisymm h v.lengthSq_nonneg, fun h => le_of_eq h⟩

theorem Vec3.lengthSq_smul (c : ℝ) (v : Vec3) : (c • v).lengthSq = c ^ 2 * v.lengthSq := by
  cases v; simp [Vec3.lengthSq]; ring

theorem Vec3.length_smul (c : ℝ) (v : Vec3) : (c • v).length = |c| * v.length := by
  rw [Vec3.length, Vec3.lengthSq_smul, Real.sqrt_mul (sq_nonneg c), Real.sqrt_sq_eq_abs,
    Vec3.length]

theorem Vec3.length_normalize (v : Vec3) (h : v.length ≠ 0) : v.normalize.length = 1 := by
  rw [Vec3.normalize, Vec3.length_smul,
    abs_of_nonneg (one_div_nonneg.mpr v.length_nonneg), one_div, inv_mul_cancel₀ h]

theorem Vec3.smul_smul (a b : ℝ) (v : Vec3) : a • (b • v) = (a * b) • v := by
  cases v; simp [mul_assoc]

/-- Evaluation helper: `Real.sqrt a = b` once `b^2 = a` and `0 ≤ b`. -/
theorem sqrt_eval (a b : ℝ) (hb : 0 ≤ b) (h : b ^ 2 = a) : Real.sqrt a = b := by
  rw [← h, Real.sqrt_sq hb]

/-! ## Facts about the Input Controller -/

theorem rawDir_lengthSq (keys : Keys) (dt : ℝ) :
    (rawDir keys dt).lengthSq =
      ((if keys.d = true then (1 : ℝ) else 0) - (if keys.a = true then 1 else 0)) ^ 2 * dt ^ 2 +
      ((if keys.w = true then (1 : ℝ) else 0) - (if keys.s = true then 1 else 0)) ^ 2 * dt ^ 2 := by
  cases ha : keys.a <;> cases hd : keys.d <;> cases hw : keys.w <;> cases hs : keys.s <;>
    simp [rawDir, Vec3.lengthSq, ha, hd, hw, hs]

theorem rawDir_lengthSq_pos_iff (keys : Keys) (dt : ℝ) :
    0 < (rawDir keys dt).lengthSq ↔ dt ≠ 0 ∧ (keys.a ≠ keys.d ∨ keys.w ≠ keys.s) := by
  rw [rawDir_lengthSq]
  cases ha : keys.a <;> cases hd : keys.d <;> cases hw : keys.w <;> cases hs : keys.s <;>
    simp [ha, hd, hw, hs] <;> constructor <;> intro h
  all_goals first
    | positivity
    | (intro h0; rw [h0] at h; simp at h)

theorem rawDir_length_pos_iff (keys : Keys) (dt : ℝ) :
    0 < (rawDir keys dt).length ↔ dt ≠ 0 ∧ (keys.a ≠ keys.d ∨ keys.w ≠ keys.s) := by
  rw [Vec3.length_pos_iff, rawDir_lengthSq_pos_iff]

/-- Key state with only W pressed. -/
def keysW : Keys := ⟨false, true, false, false⟩

/-- Key state with A and D both pressed (opposing contributions cancel). -/
def keysAD : Keys := ⟨true, false, false, true⟩

/-- The player's startup `Velocity`. -/
def vZero : Velocity := ⟨⟨0, 0, 0⟩, 0, false⟩

theorem rawDir_keysW (dt : ℝ) : rawDir keysW dt = ⟨0, dt, 0⟩ := by
  simp [rawDir, keysW]

theorem length_axisY (q : ℝ) (hq : 0 ≤ q) : (Vec3.mk 0 q 0).length = q := by
  rw [Vec3.length, Vec3.lengthSq]
  exact sqrt_eval _ _ hq (by ring)

/-- C4 (counterexample): with only W pressed, `dt = 1/10` and the startup
velocity, the Input Controller changes the velocity by a vector of length
`500 = 5000 * dt`, not `5000 * dt² = 50` as the claim states (the cap does
not fire since the new speed is exactly 500). -/
theorem accel_not_quadratic_in_dt :
    ¬ (((inputStep 0 (1 / 10) keysW vZero).magnitude - vZero.magnitude).length
        = 5000 * (1 / 10 : ℝ) ^ 2) := by
  have h2 : (Vec3.mk (0 : ℝ) (1 / 10) 0).length = 1 / 10 := length_axisY _ (by norm_num)
  have h3 : (Vec3.mk (0 : ℝ) (1 / 10) 0).normalize = ⟨0, 1, 0⟩ := by
    rw [Vec3.normalize, h2]
    norm_num
  have h4 : accelContribution keysW (1 / 10) = ⟨0, 500, 0⟩ := by
    rw [accelContribution, rawDir_keysW, h3, accel]
    norm_num
  have h5 : (Vec3.mk (0 : ℝ) 500 0).length = 500 := length_axisY _ (by norm_num)
  have hmag : vZero.magnitude + (Vec3.mk (0 : ℝ) 500 0) = ⟨0, 500, 0⟩ := by
    simp [vZero]
  have h6 : inputStep 0 (1 / 10) keysW vZero = ⟨⟨0, 500, 0⟩, 0, false⟩ := by
    simp only [inputStep]
    rw [if_pos (show 0 < (rawDir keysW (1 / 10 : ℝ)).length by rw [rawDir_keysW, h2]; norm_num)]
    rw [h4, hmag, if_neg (by rw [h5, max_speed]; norm_num)]
    rfl
  rw [h6]
  have hsub : (Vec3.mk (0 : ℝ) 500 0) - vZero.magnitude = ⟨0, 500, 0⟩ := by simp [vZero]
  show ¬(((Vec3.mk (0 : ℝ) 500 0) - vZero.magnitude).length = 5000 * (1 / 10 : ℝ) ^ 2)
  rw [hsub, h5]
  norm_num

/-- C4 (amended): for `dt > 0` and a nonzero net key direction, the velocity
change the Input Controller adds before the speed cap has magnitude
`5000 * dt` — linear in `dt`, not quadratic: the normalization cancels the
first scaling by `dt`. -/
theorem accel_linear_in_dt (dt : ℝ) (keys : Keys) (v : Velocity)
    (hdt : 0 < dt) (hk : keys.a ≠ keys.d ∨ keys.w ≠ keys.s) :
    ((v.magnitude + accelContribution keys dt) - v.magnitude).length = 5000 * dt := by
  rw [Vec3.add_sub_cancel]
  have hpos : 0 < (rawDir keys dt).length :=
    (rawDir_length_pos_iff keys dt).mpr ⟨ne_of_gt hdt, hk⟩
  rw [accelContribution, Vec3.length_smul, Vec3.length_normalize _ (ne_of_gt hpos), mul_one,
    accel, abs_of_nonneg (by positivity)]

/-- Witness for `accel_linear_in_dt` at `dt = 1/2`, W pressed, startup
velocity. -/
theorem accel_linear_in_dt_witness :
    ((vZero.magnitude + accelContribution keysW (1 / 2)) - vZero.magnitude).length
      = 5000 * (1 / 2 : ℝ) :=
  accel_linear_in_dt (1 / 2) keysW vZero (by norm_num) (Or.inr (by decide))

/-- C5: for any prior player velocity of magnitude at most 500 and any key/dt
input, the velocity magnitude after the Input Controller runs is at most 500;
and whenever the cap branch fires (nonzero raw direction and post-acceleration
speed above `max_speed`), the new velocity is the pre-cap vector rescaled by
the positive factor `500 / |pre-cap|`, i.e. exactly speed 500 with direction
preserved. -/
theorem speed_cap (now dt : ℝ) (keys : Keys) (v : Velocity)
    (hv : v.magnitude.length ≤ 500) :
    (inputStep now dt keys v).magnitude.length ≤ 500 ∧
    (0 < (rawDir keys dt).length →
      max_speed < (v.magnitude + accelContribution keys dt).length →
      (inputStep now dt keys v).magnitude
          = (500 * (1 / (v.magnitude + accelContribution keys dt).length)) •
            (v.magnitude + accelContribution keys dt) ∧
      (inputStep now dt keys v).magnitude.length = 500) := by
  have key : ∀ m : Vec3, max_speed < m.length →
      (max_speed • m.normalize).length = 500 := by
    intro m hc
    have hm0 : m.length ≠ 0 := by
      intro h0
      rw [h0, max_speed] at hc
      norm_num at hc
    rw [Vec3.length_smul, Vec3.length_normalize _ hm0, mul_one, max_speed]
    norm_num
  constructor
  · by_cases hg : 0 < (rawDir keys dt).length
    · simp only [inputStep, if_pos hg]
      by_cases hc : max_speed < (v.magnitude + accelContribution keys dt).length
      · rw [if_pos hc]
        exact le_of_eq (key _ hc)
      · rw [if_neg hc]
        push_neg at hc
        rw [max_speed] at hc
        exact hc
    · simp only [inputStep, if_neg hg]
      exact hv
  · intro hg hc
    simp only [inputStep, if_pos hg, if_pos hc]
    refine ⟨?_, key _ hc⟩
    rw [Vec3.normalize, Vec3.smul_smul, max_speed]

/-- Witness for `speed_cap`: startup velocity, W pressed, `dt = 1` — the cap
branch fires (pre-cap speed 5000) and the result has speed exactly 500. -/
theorem speed_cap_witness : (inputStep 0 1 keysW vZero).magnitude.length = 500 := by
  have hnorm : (Vec3.mk (0 : ℝ) 1 0).normalize = ⟨0, 1, 0⟩ := by
    rw [Vec3.normalize, length_axisY 1 (by norm_num)]
    norm_num
  have hacc : accelContribution keysW 1 = ⟨0, 5000, 0⟩ := by
    rw [accelContribution, rawDir_keysW, accel, hnorm]
    norm_num
  have hm : vZero.magnitude + accelContribution keysW 1 = ⟨0, 5000, 0⟩ := by
    rw [hacc]
    simp [vZero]
  have hv : vZero.magnitude.length ≤ 500 := by
    rw [show vZero.magnitude = (⟨0, 0, 0⟩ : Vec3) from rfl, length_axisY 0 le_rfl]
    norm_num
  have hg : 0 < (rawDir keysW (1 : ℝ)).length := by
    rw [rawDir_keysW, length_axisY 1 (by norm_num)]
    norm_num
  have hc : max_speed < (vZero.magnitude + accelContribution keysW 1).length := by
    rw [hm, length_axisY 5000 (by norm_num), max_speed]
    norm_num
  exact ((speed_cap 0 1 keysW vZero hv).2 hg hc).2

/-- C8 (counterexample): with A and D pressed together at `dt = 1/60`, the
per-axis contributions cancel, the accumulated direction is zero and
`last_change` keeps its old value `0` instead of being set to `now = 5` —
even though a movement key was pressed this frame. -/
theorem last_change_not_updated_on_cancel :
    ¬ ((inputStep 5 (1 / 60) keysAD vZero).last_change = 5) := by
  have hz : (rawDir keysAD (1 / 60 : ℝ)).lengthSq = 0 := by
    simp [rawDir, keysAD, Vec3.lengthSq]
  have hg : ¬ (0 < (rawDir keysAD (1 / 60 : ℝ)).length) := by
    rw [Vec3.length_pos_iff, hz]
    norm_num
  simp only [inputStep, if_neg hg]
  norm_num [vZero]

/-- C8 (amended): the Input Controller sets `last_change = now` exactly when
the accumulated direction vector is nonzero — `dt ≠ 0` and the key
contributions on some axis do not cancel; in every other case (no key, a zero
`dt`, or cancelling opposite keys) the entire `Velocity` is left unchanged,
so the friction quiescence timer is not reset. -/
theorem last_change_update_iff (now dt : ℝ) (keys : Keys) (v : Velocity) :
    ((dt ≠ 0 ∧ (keys.a ≠ keys.d ∨ keys.w ≠ keys.s)) →
        (inputStep now dt keys v).last_change = now) ∧
    (¬ (dt ≠ 0 ∧ (keys.a ≠ keys.d ∨ keys.w ≠ keys.s)) →
        inputStep now dt keys v = v) := by
  constructor
  · intro h
    have hg : 0 < (rawDir keys dt).length := (rawDir_length_pos_iff keys dt).mpr h
    simp only [inputStep, if_pos hg]
  · intro h
    have hg : ¬ (0 < (rawDir keys dt).length) := by
      rw [rawDir_length_pos_iff]
      exact h
    simp only [inputStep, if_neg hg]

/-- Witness for `last_change_update_iff`: W pressed with `dt = 1` sets
`last_change` to `now = 3`. -/
theorem last_change_update_iff_witness : (inputStep 3 1 keysW vZero).last_change = 3 :=
  (last_change_update_iff 3 1 keysW vZero).1 ⟨by norm_num, Or.inr (by decide)⟩

/-! ## Facts about the Fire Controller -/

/-- Left-button pressed event. -/
def leftPress : MouseButtonInput := ⟨MouseButton.Left, ElementState.Pressed⟩

/-- Left-button released event. -/
def leftRelease : MouseButtonInput := ⟨MouseButton.Left, ElementState.Released⟩

/-- Right-button pressed event. -/
def rightPress : MouseButtonInput := ⟨MouseButton.Right, ElementState.Pressed⟩

/-- C2 (counterexample): a *released* left-button event at `now = 0.2` from
the startup state spawns a projectile and updates `last_shot_at` — the source
checks only `event.button`, never `event.state`. -/
theorem fireStep_left_released_spawns :
    (fireStep 0.2 leftRelease initialWorld).projectiles.length = 1 ∧
    ¬ ((fireStep 0.2 leftRelease initialWorld).shooter.last_shot_at
        = initialWorld.shooter.last_shot_at) := by
  simp only [fireStep]
  rw [if_pos (show leftRelease.button = MouseButton.Left from rfl)]
  rw [if_pos (show (0.1 : ℝ) < 0.2 - initialWorld.shooter.last_shot_at by
    norm_num [initialWorld])]
  constructor
  · simp [initialWorld]
  · norm_num [initialWorld]

/-- C2 (amended): only the button identifier is tested by the Fire
Controller: any event whose button is not the left (primary) one spawns
nothing and leaves the whole world — in particular the Shooter — unchanged;
the pressed/released state of left-button events is ignored. -/
theorem fireStep_ignores_nonleft (now : ℝ) (ev : MouseButtonInput) (w : World)
    (h : ev.button ≠ MouseButton.Left) : fireStep now ev w = w := by
  simp only [fireStep, if_neg h]

/-- Witness for `fireStep_ignores_nonleft`: a right-button press at a time
well past the cooldown changes nothing. -/
theorem fireStep_ignores_nonleft_witness : fireStep 7 rightPress initialWorld = initialWorld :=
  fireStep_ignores_nonleft 7 rightPress initialWorld (by decide)

theorem fireSystem_cons (now : ℝ) (e : MouseButtonInput) (evs : List MouseButtonInput)
    (w : World) : fireSystem now (e :: evs) w = fireSystem now evs (fireStep now e w) := rfl

theorem fireStep_of_last_eq (now : ℝ) (ev : MouseButtonInput) (w : World)
    (h : w.shooter.last_shot_at = now) : fireStep now ev w = w := by
  by_cases hb : ev.button = MouseButton.Left
  · simp only [fireStep, if_pos hb]
    rw [if_neg (by rw [h]; norm_num)]
  · simp only [fireStep, if_neg hb]

theorem fireSystem_fixed (now : ℝ) (evs : List MouseButtonInput) (w : World)
    (h : w.shooter.last_shot_at = now) : fireSystem now evs w = w := by
  induction evs with
  | nil => rfl
  | cons e evs ih => rw [fireSystem_cons, fireStep_of_last_eq now e w h]; exact ih

theorem fireStep_spec (now : ℝ) (ev : MouseButtonInput) (w : World) :
    fireStep now ev w = w ∨
      ((fireStep now ev w).projectiles.length = w.projectiles.length + 1 ∧
        (fireStep now ev w).shooter.last_shot_at = now) := by
  by_cases hb : ev.button = MouseButton.Left
  · by_cases hc : (0.1 : ℝ) < now - w.shooter.last_shot_at
    · right
      simp only [fireStep, if_pos hb, if_pos hc]
      simp
    · left
      simp only [fireStep, if_pos hb, if_neg hc]
  · left
    simp only [fireStep, if_neg hb]

theorem fireSystem_spec (now : ℝ) (evs : List MouseButtonInput) : ∀ w : World,
    fireSystem now evs w = w ∨
      ((fireSystem now evs w).projectiles.length = w.projectiles.length + 1 ∧
        (fireSystem now evs w).shooter.last_shot_at = now) := by
  induction evs with
  | nil => intro w; left; rfl
  | cons e evs ih =>
      intro w
      rcases fireStep_spec now e w with h | ⟨h1, h2⟩
      · rw [fireSystem_cons, h]; exact ih w
      · right
        rw [fireSystem_cons, fireSystem_fixed now evs _ h2]
        exact ⟨h1, h2⟩

/-- C10: however many fire-trigger events are drained in one frame (one `now`
value), the Fire Controller spawns at most one projectile: the first spawn
sets `last_shot_at = now` and every later event of the frame fails the strict
cooldown test; moreover `last_shot_at` ends the frame either untouched or
equal to `now`. -/
theorem fire_at_most_one_per_frame (now : ℝ) (evs : List MouseButtonInput) (w : World) :
    (fireSystem now evs w).projectiles.length ≤ w.projectiles.length + 1 ∧
    ((fireSystem now evs w).shooter.last_shot_at = w.shooter.last_shot_at ∨
      (fireSystem now evs w).shooter.last_shot_at = now) := by
  rcases fireSystem_spec now evs w with h | ⟨h1, h2⟩
  · rw [h]; exact ⟨Nat.le_succ _, Or.inl rfl⟩
  · rw [h1]; exact ⟨le_rfl, Or.inr h2⟩

/-! ## Facts about the Friction Decay -/

theorem Vec3.one_smul (v : Vec3) : (1 : ℝ) • v = v := by
  cases v; simp

/-- Repeated applications of the Friction Decay at the frame times `ts`, with
no intervening acceleration (nothing else touches the entity's `Velocity`
between frames). -/
def frictionRun (ts : List ℝ) (v : Velocity) : Velocity :=
  ts.foldl (fun v t => frictionStep t v) v

theorem frictionRun_cons (t : ℝ) (ts : List ℝ) (v : Velocity) :
    frictionRun (t :: ts) v = frictionRun ts (frictionStep t v) := rfl

theorem frictionStep_apply (now : ℝ) (v : Velocity) (ht : 0.1 < now - v.last_change)
    (hnf : v.no_friction = false) (hm : 0 < v.magnitude.length) :
    frictionStep now v = { v with magnitude := (0.7 : ℝ) • v.magnitude } := by
  simp only [frictionStep, if_pos (And.intro ht hnf), if_pos hm]

theorem length_smul_07 (m : Vec3) : ((0.7 : ℝ) • m).length = 0.7 * m.length := by
  rw [Vec3.length_smul, abs_of_nonneg (by norm_num : (0 : ℝ) ≤ 0.7)]

theorem frictionRun_closed (ts : List ℝ) : ∀ v : Velocity, v.no_friction = false →
    0 < v.magnitude.length → (∀ t ∈ ts, 0.1 < t - v.last_change) →
    frictionRun ts v =
      { magnitude := (0.7 : ℝ) ^ ts.length • v.magnitude
      , last_change := v.last_change
      , no_friction := false } := by
  induction ts with
  | nil =>
      intro v hnf hm _
      obtain ⟨m, lc, nf⟩ := v
      simp only at hnf
      subst hnf
      simp [frictionRun, Vec3.one_smul]
  | cons t ts ih =>
      intro v hnf hm hts
      have ht0 : 0.1 < t - v.last_change := hts t (List.mem_cons_self t ts)
      rw [frictionRun_cons, frictionStep_apply t v ht0 hnf hm]
      have hm' : 0 < ({ v with magnitude := (0.7 : ℝ) • v.magnitude } : Velocity).magnitude.length := by
        show 0 < ((0.7 : ℝ) • v.magnitude).length
        rw [length_smul_07]
        nlinarith [hm]
      rw [ih { v with magnitude := (0.7 : ℝ) • v.magnitude } hnf hm' (fun t' ht' => hts t' (List.mem_cons_of_mem t ht'))]
      simp only [Velocity.mk.injEq, List.length_cons]
      refine ⟨?_, by trivial, by trivial⟩
      rw [Vec3.smul_smul, pow_succ]

/-- C7: for an entity with `no_friction = false`, whenever
`now - last_change > 0.1` and the speed is nonzero, one Friction Decay
application multiplies the velocity vector by exactly 0.7 (so the speed by
0.7, strictly smaller) and leaves `last_change` untouched; over any sequence
of frame times that each satisfy the quiescence test, the speed is
`0.7^n * initial`, still strictly positive (never exactly zero), and one more
application strictly decreases it again; an entity whose speed is exactly 0
is left unchanged. -/
theorem friction_decay_props (now : ℝ) (v : Velocity)
    (hnf : v.no_friction = false) (ht : 0.1 < now - v.last_change) :
    (0 < v.magnitude.length →
      (frictionStep now v).magnitude = (0.7 : ℝ) • v.magnitude ∧
      (frictionStep now v).magnitude.length = 0.7 * v.magnitude.length ∧
      (frictionStep now v).magnitude.length < v.magnitude.length ∧
      (frictionStep now v).last_change = v.last_change ∧
      (∀ ts : List ℝ, (∀ t ∈ ts, 0.1 < t - v.last_change) →
        (frictionRun ts v).magnitude.length = (0.7 : ℝ) ^ ts.length * v.magnitude.length ∧
        0 < (frictionRun ts v).magnitude.length ∧
        (frictionRun (ts ++ [now]) v).magnitude.length < (frictionRun ts v).magnitude.length)) ∧
    (v.magnitude.length = 0 → frictionStep now v = v) := by
  constructor
  · intro hm
    have hstep := frictionStep_apply now v ht hnf hm
    refine ⟨by rw [hstep], ?_, ?_, by rw [hstep], ?_⟩
    · rw [hstep]
      exact length_smul_07 v.magnitude
    · rw [hstep]
      show ((0.7 : ℝ) • v.magnitude).length < v.magnitude.length
      rw [length_smul_07]
      nlinarith [hm]
    · intro ts hts
      have hcl := frictionRun_closed ts v hnf hm hts
      have hcl2 := frictionRun_closed (ts ++ [now]) v hnf hm (by
        intro t' ht'
        rcases List.mem_append.mp ht' with h | h
        · exact hts t' h
        · rw [List.mem_singleton.mp h]; exact ht)
      rw [hcl, hcl2]
      simp only [Vec3.length_smul]
      have habs : ∀ n : ℕ, |(0.7 : ℝ) ^ n| = (0.7 : ℝ) ^ n := fun n =>
        abs_of_nonneg (by positivity)
      rw [habs, habs]
      refine ⟨by trivial, by positivity, ?_⟩
      have hlen : (ts ++ [now]).length = ts.length + 1 := by simp
      rw [hlen, pow_succ]
      have h7 : (0 : ℝ) < (0.7 : ℝ) ^ ts.length := by positivity
      nlinarith [hm, h7]
  · intro h0
    simp only [frictionStep, if_pos (And.intro ht hnf)]
    rw [if_neg (by rw [h0]; norm_num)]

/-- Witness for `friction_decay_props`: an entity with velocity `(0,1,0)`,
`last_change = 0`, friction enabled, at `now = 1`: one application scales the
velocity by exactly 0.7. -/
theorem friction_decay_props_witness :
    (frictionStep 1 ⟨⟨0, 1, 0⟩, 0, false⟩).magnitude
      = (0.7 : ℝ) • (⟨⟨0, 1, 0⟩, 0, false⟩ : Velocity).magnitude :=
  ((friction_decay_props 1 ⟨⟨0, 1, 0⟩, 0, false⟩ rfl (by norm_num)).1
    (by rw [show (⟨⟨0, 1, 0⟩, 0, false⟩ : Velocity).magnitude = ⟨0, 1, 0⟩ from rfl,
      length_axisY 1 (by norm_num)]; norm_num)).1

/-! ## Facts about the Lifespan Reaper -/

/-- C6: a projectile with `kill_at = t0 + 0.5` survives the Lifespan Reaper
at a frame `now` exactly when it was present and `now < t0 + 0.5`: it is
destroyed at the first frame whose `now ≥ t0 + 0.5` and never at a frame with
`now < t0 + 0.5`. -/
theorem lifespan_reaper_exact (now t0 : ℝ) (ps : List Projectile) (p : Projectile)
    (hk : p.kill_at = t0 + 0.5) :
    p ∈ killList now ps ↔ p ∈ ps ∧ now < t0 + 0.5 := by
  simp only [killList, List.mem_filter, decide_eq_true_eq, hk, ge_iff_le, not_le]

/-- Example projectile (spawned at `t0 = 1`, so `kill_at = 1.5`). -/
def pEx : Projectile := ⟨⟨none, some 0⟩, ⟨none, 0, true⟩, 1.5⟩

/-- Witness for `lifespan_reaper_exact`: the projectile with `kill_at = 1.5`
is gone at the frame `now = 1.5`. -/
theorem lifespan_reaper_exact_witness : ¬ (pEx ∈ killList 1.5 [pEx]) := fun h =>
  absurd ((lifespan_reaper_exact 1.5 1 [pEx] pEx (by norm_num [pEx])).mp h).2 (by norm_num)

/-! ## Zero-length degenerate cases (Aim Tracker and Fire Controller) -/

/-- Pointer event at the screen-center reference point. -/
def centerEvent : CursorMoved := ⟨⟨640, 400⟩⟩

/-- C3 (code_bug evaluation): with the player at the origin, a pointer event
at the reference point makes `view_dir` the zero vector; the source feeds it
to `angle_between` with no special case, so the player's rotation — `some 0`
beforehand — and `shoot_angle` become NaN (`none`): the prior rotation is
*not* retained.  Likewise a left press at `now = 0.2` with the startup
`shoot_direction = (0,0)` normalizes the zero vector, so the spawned
projectile's velocity and position are NaN (`none`), not a default unit
direction. -/
theorem zero_vector_nan_propagation :
    initialWorld.transform.rotation = some 0 ∧
    (mouseStep centerEvent initialWorld.transform initialWorld.shooter).1.rotation = none ∧
    (mouseStep centerEvent initialWorld.transform initialWorld.shooter).2.shoot_angle = none ∧
    ((fireStep 0.2 leftPress initialWorld).projectiles.map
        (fun p => (p.velocity.magnitude, p.transform.translation))) = [(none, none)] := by
  refine ⟨rfl, ?_, ?_, ?_⟩
  · norm_num [mouseStep, centerEvent, screenCenter, initialWorld, Vec2.angleBetween,
      Vec2.lengthSq]
  · norm_num [mouseStep, centerEvent, screenCenter, initialWorld, Vec2.angleBetween,
      Vec2.lengthSq]
  · simp only [fireStep]
    rw [if_pos (show leftPress.button = MouseButton.Left from rfl)]
    rw [if_pos (show (0.1 : ℝ) < 0.2 - initialWorld.shooter.last_shot_at by
      norm_num [initialWorld])]
    have hz : (Vec3.mk (0 : ℝ) 0 0).length = 0 := length_axisY 0 le_rfl
    simp [initialWorld, hz]

/-! ## The fire/cooldown scenario of the spec (claim C1) -/

/-- No movement key pressed. -/
def noKeys : Keys := ⟨false, false, false, false⟩

/-- Frame 1 of the scenario: fire trigger at `now = 0`. -/
def scenarioW1 : World := worldFrame 0 0 noKeys [] [leftPress] initialWorld

/-- Frame 2 of the scenario: fire trigger at `now = 0.05`. -/
def scenarioW2 : World := worldFrame 0.05 0.05 noKeys [] [leftPress] scenarioW1

/-- Frame 3 of the scenario: fire trigger at `now = 0.2`. -/
def scenarioW3 : World := worldFrame 0.2 0.15 noKeys [] [leftPress] scenarioW2

theorem rawDir_noKeys (dt : ℝ) : rawDir noKeys dt = ⟨0, 0, 0⟩ := by
  simp [rawDir, noKeys]

theorem inputStep_noKeys (now dt : ℝ) (v : Velocity) : inputStep now dt noKeys v = v := by
  have h : ¬ (0 < (rawDir noKeys dt).length) := by
    rw [rawDir_noKeys, Vec3.length_pos_iff]
    norm_num [Vec3.lengthSq]
  simp only [inputStep, if_neg h]

theorem inputSystem_noKeys (now dt : ℝ) (w : World) : inputSystem now dt noKeys w = w := by
  simp [inputSystem, inputStep_noKeys]

theorem mouseSystem_nil (w : World) : mouseSystem [] w = w := rfl

theorem fireSystem_singleton (now : ℝ) (e : MouseButtonInput) (w : World) :
    fireSystem now [e] w = fireStep now e w := rfl

theorem fireStep_cooldown (now : ℝ) (ev : MouseButtonInput) (w : World)
    (h : ¬ (0.1 < now - w.shooter.last_shot_at)) : fireStep now ev w = w := by
  by_cases hb : ev.button = MouseButton.Left
  · simp only [fireStep, if_pos hb, if_neg h]
  · simp only [fireStep, if_neg hb]

theorem velocitySystem_initial (dt : ℝ) : velocitySystem dt initialWorld = initialWorld := by
  simp [velocitySystem, velocityStep, initialWorld]

theorem frictionStep_zero_mag (now : ℝ) (v : Velocity) (h : v.magnitude.length = 0) :
    frictionStep now v = v := by
  simp only [frictionStep]
  by_cases hc : 0.1 < now - v.last_change ∧ v.no_friction = false
  · rw [if_pos hc, if_neg (by rw [h]; norm_num)]
  · rw [if_neg hc]

theorem frictionSystem_initial (now : ℝ) : frictionSystem now initialWorld = initialWorld := by
  have h : frictionStep now ⟨⟨0, 0, 0⟩, 0, false⟩ = ⟨⟨0, 0, 0⟩, 0, false⟩ :=
    frictionStep_zero_mag now ⟨⟨0, 0, 0⟩, 0, false⟩ (length_axisY 0 le_rfl)
  simp [frictionSystem, initialWorld, h]

theorem killSystem_initial (now : ℝ) : killSystem now initialWorld = initialWorld := by
  simp [killSystem, killList, initialWorld]

theorem scenarioW1_eq : scenarioW1 = initialWorld := by
  simp only [scenarioW1, worldFrame]
  rw [inputSystem_noKeys, mouseSystem_nil, fireSystem_singleton,
    fireStep_cooldown 0 leftPress initialWorld (by norm_num [initialWorld]),
    velocitySystem_initial, frictionSystem_initial, killSystem_initial]

theorem scenarioW2_eq : scenarioW2 = initialWorld := by
  simp only [scenarioW2, worldFrame, scenarioW1_eq]
  rw [inputSystem_noKeys, mouseSystem_nil, fireSystem_singleton,
    fireStep_cooldown 0.05 leftPress initialWorld (by norm_num [initialWorld]),
    velocitySystem_initial, frictionSystem_initial, killSystem_initial]

/-- C1 (counterexample): with the player spawned at startup
(`last_shot_at = 0.0`), firing at `now = 0` and again at `now = 0.05` leaves
*zero* projectiles, not one: the strict cooldown `now - last_shot_at > 0.1`
already fails for the very first shot. -/
theorem fire_scenario_not_one_at_005 : ¬ (scenarioW2.projectiles.length = 1) := by
  rw [scenarioW2_eq]
  norm_num [initialWorld]

/-- C1 (amended): from the startup state the fire triggers at `now = 0` and
`now = 0.05` both fail the strict cooldown test against the initial
`last_shot_at = 0`, so no projectile exists at `now = 0.05`; the trigger at
`now = 0.2` passes the test and spawns the first projectile. -/
theorem fire_scenario_counts :
    scenarioW2.projectiles.length = 0 ∧ scenarioW3.projectiles.length = 1 := by
  constructor
  · rw [scenarioW2_eq]
    norm_num [initialWorld]
  · rw [scenarioW3, scenarioW2_eq]
    simp only [worldFrame, inputSystem_noKeys, mouseSystem_nil, fireSystem_singleton]
    simp only [fireStep]
    rw [if_pos (show leftPress.button = MouseButton.Left from rfl)]
    rw [if_pos (show (0.1 : ℝ) < 0.2 - initialWorld.shooter.last_shot_at by
      norm_num [initialWorld])]
    simp [velocitySystem, frictionSystem, killSystem, killList, velocityStepProj,
      frictionProj, frictionStepProj, initialWorld, List.filter]
    norm_num

/-! ## Immutability of projectile velocities (claim C9) -/

theorem mouseSystem_cons (e : CursorMoved) (evs : List CursorMoved) (w : World) :
    mouseSystem (e :: evs) w =
      mouseSystem evs
        { w with transform := (mouseStep e w.transform w.shooter).1
               , shooter := (mouseStep e w.transform w.shooter).2 } := rfl

theorem mouseSystem_projectiles (evs : List CursorMoved) : ∀ w : World,
    (mouseSystem evs w).projectiles = w.projectiles := by
  induction evs with
  | nil => intro w; rfl
  | cons e evs ih => intro w; rw [mouseSystem_cons]; exact ih _

theorem velocityStepProj_velocity (dt : ℝ) (p : Projectile) :
    (velocityStepProj dt p).velocity = p.velocity := rfl

theorem frictionProj_no_friction (now : ℝ) (p : Projectile)
    (h : p.velocity.no_friction = true) : frictionProj now p = p := by
  have hv : frictionStepProj now p.velocity = p.velocity := by
    simp only [frictionStepProj]
    rw [if_neg]
    rintro ⟨-, h2⟩
    rw [h] at h2
    simp at h2
  simp only [frictionProj, hv]

theorem fireStep_projectiles (now : ℝ) (ev : MouseButtonInput) (w : World) :
    fireStep now ev w = w ∨
      ∃ p : Projectile, p.velocity.no_friction = true ∧
        (fireStep now ev w).projectiles = w.projectiles ++ [p] := by
  by_cases hb : ev.button = MouseButton.Left
  · by_cases hc : (0.1 : ℝ) < now - w.shooter.last_shot_at
    · right
      simp only [fireStep, if_pos hb, if_pos hc]
      refine ⟨_, ?_, rfl⟩
      rfl
    · left
      simp only [fireStep, if_pos hb, if_neg hc]
  · left
    simp only [fireStep, if_neg hb]

theorem fireSystem_append (now : ℝ) (evs : List MouseButtonInput) : ∀ w : World,
    ∃ new : List Projectile,
      (fireSystem now evs w).projectiles = w.projectiles ++ new ∧
      ∀ q ∈ new, q.velocity.no_friction = true := by
  induction evs with
  | nil => intro w; exact ⟨[], by simp [fireSystem], by simp⟩
  | cons e evs ih =>
      intro w
      rcases fireStep_projectiles now e w with h | ⟨p, hp, hps⟩
      · rw [fireSystem_cons, h]
        exact ih w
      · obtain ⟨new, hnew, hq⟩ := ih (fireStep now e w)
        refine ⟨p :: new, ?_, ?_⟩
        · rw [fireSystem_cons, hnew, hps, List.append_assoc]
          rfl
        · intro q hqmem
          rcases List.mem_cons.mp hqmem with rfl | hqm
          · exact hp
          · exact hq q hqm

/-- C9: every projectile has `no_friction = true`, and under that invariant a
whole frame never alters a surviving projectile's velocity: the Movement
Integrator rewrites only the transform, the Friction Decay is the identity on
`no_friction` entities, the Input Controller touches only the player (the
only holder of a `Shooter`), and the frame's surviving projectile list is a
sublist of the old projectiles (each merely moved, with its velocity intact)
plus freshly spawned ones. -/
theorem projectile_velocity_immutable (now dt : ℝ) (keys : Keys)
    (cevs : List CursorMoved) (fevs : List MouseButtonInput) (w : World)
    (hnf : ∀ p ∈ w.projectiles, p.velocity.no_friction = true) :
    (∀ p : Projectile, (velocityStepProj dt p).velocity = p.velocity) ∧
    (∀ p : Projectile, p.velocity.no_friction = true → frictionProj now p = p) ∧
    (inputSystem now dt keys w).projectiles = w.projectiles ∧
    ∃ spawned : List Projectile,
      (worldFrame now dt keys cevs fevs w).projectiles.Sublist
        ((w.projectiles.map (velocityStepProj dt)) ++ spawned) := by
  refine ⟨fun p => rfl, fun p h => frictionProj_no_friction now p h, ?_, ?_⟩
  · rfl
  obtain ⟨new, hnew, hq⟩ :=
    fireSystem_append now fevs (mouseSystem cevs (inputSystem now dt keys w))
  have hmp : (mouseSystem cevs (inputSystem now dt keys w)).projectiles = w.projectiles := by
    rw [mouseSystem_projectiles]
    rfl
  rw [hmp] at hnew
  refine ⟨new.map (velocityStepProj dt), ?_⟩
  have hframe : (worldFrame now dt keys cevs fevs w).projectiles =
      killList now
        (((fireSystem now fevs (mouseSystem cevs (inputSystem now dt keys w))).projectiles.map
            (velocityStepProj dt)).map (frictionProj now)) := rfl
  have hid : ∀ x ∈ ((w.projectiles ++ new).map (velocityStepProj dt)),
      frictionProj now x = x := by
    intro x hx
    rcases List.mem_map.mp hx with ⟨p, hp, rfl⟩
    apply frictionProj_no_friction
    rw [velocityStepProj_velocity]
    rcases List.mem_append.mp hp with h | h
    · exact hnf p h
    · exact hq p h
  rw [hframe, hnew, List.map_congr_left hid, ((w.projectiles ++ new).map _).map_id',
    List.map_append]
  exact List.filter_sublist _

/-- Witness for `projectile_velocity_immutable`: a world holding one
projectile (`no_friction = true`), no input events — the frame's projectile
list is a sublist of the moved old projectile plus some spawn list. -/
theorem projectile_velocity_immutable_witness :
    ∃ spawned : List Projectile,
      (worldFrame 1 1 noKeys [] [] { initialWorld with projectiles := [pEx] }).projectiles.Sublist
        ((([pEx] : List Projectile).map (velocityStepProj 1)) ++ spawned) :=
  (projectile_velocity_immutable 1 1 noKeys [] [] { initialWorld with projectiles := [pEx] }
    (by intro p hp; rcases List.mem_singleton.mp hp with rfl; rfl)).2.2.2

end
